import Mathlib

/-!
# LimitedClassedHandleResource

A shallow embedding of `hal::LimitedClassedHandleResource`
(`src/hal/include/HAL/handles/LimitedClassedHandleResource.h`) and the
properties of its sequential behaviour.

* A `std::shared_ptr<TStruct>` is an `Option TStruct`: `none` is `nullptr`,
  `some r` is a reference to the resource object `r` (two references are
  equal when they point to the same object).
* `m_structures` is the list of the slots. An access outside the list is
  the fault `Outcome.outOfBounds`.
* The mutexes guard the slots against other threads; a single-threaded
  run is not changed by them, so they have no counterpart here.
* `size` is an `int16_t` template parameter. The constructor only returns
  for `0 ≤ size`, so `size` is a natural number here; the loop counter `i`
  of `Allocate` stays below `size ≤ 32767` and never wraps.
-/

namespace hal

/-- The C type `HAL_Handle` (`int32_t`), from which `THandle` is typedefed. -/
abbrev HAL_Handle := Int

/-- The C enumeration `HAL_HandleEnum`, by its integer value. -/
abbrev HAL_HandleEnum := Int

/-- A `std::shared_ptr<TStruct>`: `none` is `nullptr`. -/
abbrev SharedPtr (TStruct : Type) := Option TStruct

/-- The names `LimitedClassedHandleResource.h` takes from `HAL/Types.h` and
`HAL/handles/HandlesInternal.h`, which are not part of the sources at hand:
the constant `HAL_kInvalidHandle` and the functions `createHandle` and
`getHandleTypedIndex`. The index arguments and results are `int16_t`. -/
structure HandlesInternal where
  HAL_kInvalidHandle : HAL_Handle
  createHandle : Int → HAL_HandleEnum → HAL_Handle
  getHandleTypedIndex : HAL_Handle → HAL_HandleEnum → Int

/-- What a member function does: it returns `a`, or it reads or writes
`m_structures` outside the array. -/
inductive Outcome (α : Type) where
  | ok (a : α)
  | outOfBounds
  deriving DecidableEq, Repr

/-- Sequencing of member calls: a fault ends the run. -/
def Outcome.bind {α β : Type} (x : Outcome α) (f : α → Outcome β) : Outcome β :=
  match x with
  | .ok a => f a
  | .outOfBounds => .outOfBounds

/-- The data of the class: the array `m_structures`. -/
structure LimitedClassedHandleResource (TStruct : Type) where
  m_structures : List (SharedPtr TStruct)
  deriving DecidableEq, Repr

namespace LimitedClassedHandleResource

variable {TStruct : Type}

/-- The constructor: `std::make_unique<std::shared_ptr<TStruct>[]>(size)`
value-initialises `size` elements, each a null `shared_ptr`. -/
def construct (size : Nat) : LimitedClassedHandleResource TStruct :=
  ⟨List.replicate size none⟩

/-- The read `m_structures[i]`. -/
def readSlot (p : LimitedClassedHandleResource TStruct) (i : Nat) :
    Outcome (SharedPtr TStruct) :=
  match p.m_structures[i]? with
  | some v => .ok v
  | none => .outOfBounds

/-- The write `m_structures[i] = v`. -/
def writeSlot (p : LimitedClassedHandleResource TStruct) (i : Nat)
    (v : SharedPtr TStruct) : Outcome (LimitedClassedHandleResource TStruct) :=
  if i < p.m_structures.length then .ok ⟨p.m_structures.set i v⟩ else .outOfBounds

/-- The loop `for (i = ...; i < size; i++)` of `Allocate`, entered with the
counter at `i` and `n = size - i` rounds to go: the guard `i < size` holds
exactly when `n` is a successor. After the loop comes
`return HAL_kInvalidHandle`. -/
def allocateLoop (c : HandlesInternal) (enumValue : HAL_HandleEnum)
    (toSet : SharedPtr TStruct) (p : LimitedClassedHandleResource TStruct) :
    Nat → Nat → Outcome (HAL_Handle × LimitedClassedHandleResource TStruct)
  | _, 0 => .ok (c.HAL_kInvalidHandle, p)
  | i, n + 1 =>
    match readSlot p i with
    | .outOfBounds => .outOfBounds
    | .ok none =>
      match writeSlot p i toSet with
      | .outOfBounds => .outOfBounds
      | .ok p' => .ok (c.createHandle (i : Int) enumValue, p')
    | .ok (some _) => allocateLoop c enumValue toSet p (i + 1) n

/-- The member `Allocate`: the handle returned and the pool afterwards. -/
def Allocate (c : HandlesInternal) (size : Nat) (enumValue : HAL_HandleEnum)
    (toSet : SharedPtr TStruct) (p : LimitedClassedHandleResource TStruct) :
    Outcome (HAL_Handle × LimitedClassedHandleResource TStruct) :=
  allocateLoop c enumValue toSet p 0 size

/-- The member `Get`: the reference returned and the pool afterwards. -/
def Get (c : HandlesInternal) (size : Nat) (enumValue : HAL_HandleEnum)
    (handle : HAL_Handle) (p : LimitedClassedHandleResource TStruct) :
    Outcome (SharedPtr TStruct × LimitedClassedHandleResource TStruct) :=
  let index : Int := c.getHandleTypedIndex handle enumValue
  if index < 0 ∨ index ≥ (size : Int) then
    .ok (none, p)
  else
    match readSlot p index.toNat with
    | .outOfBounds => .outOfBounds
    | .ok v => .ok (v, p)

/-- The member `Free`: the pool afterwards. `reset()` makes the slot null. -/
def Free (c : HandlesInternal) (size : Nat) (enumValue : HAL_HandleEnum)
    (handle : HAL_Handle) (p : LimitedClassedHandleResource TStruct) :
    Outcome (LimitedClassedHandleResource TStruct) :=
  let index : Int := c.getHandleTypedIndex handle enumValue
  if index < 0 ∨ index ≥ (size : Int) then
    .ok p
  else
    writeSlot p index.toNat none

/-- A pool of the class instantiated with `size`: the array has `size`
elements, as the constructor made it. -/
abbrev WellFormed (size : Nat) (p : LimitedClassedHandleResource TStruct) : Prop :=
  p.m_structures.length = size

/-- Slot `i` exists and holds the reference `v`. -/
abbrev SlotHolds (p : LimitedClassedHandleResource TStruct) (i : Nat)
    (v : SharedPtr TStruct) : Prop :=
  p.m_structures[i]? = some v

/-- Slot `i` exists and is empty (holds `nullptr`). -/
abbrev SlotEmpty (p : LimitedClassedHandleResource TStruct) (i : Nat) : Prop :=
  SlotHolds p i none

/-- Slot `i` is the first empty slot: it is empty and no slot below is. -/
abbrev FirstEmpty (p : LimitedClassedHandleResource TStruct) (i : Nat) : Prop :=
  SlotEmpty p i ∧ ∀ j, j < i → ¬ SlotEmpty p j

/-- Every slot of the pool is occupied (non-null). -/
abbrev Full (p : LimitedClassedHandleResource TStruct) : Prop :=
  ∀ v, v ∈ p.m_structures → v ≠ none

/-! ## Runs of several calls -/

/-- One call of a member function by a client of the pool. -/
inductive Call (TStruct : Type) where
  | allocate (toSet : SharedPtr TStruct)
  | get (handle : HAL_Handle)
  | free (handle : HAL_Handle)
  deriving DecidableEq, Repr

/-- Whether the call is a call of `Free`. -/
def Call.isFree : Call TStruct → Bool
  | .free _ => true
  | _ => false

/-- The pool after one call (the value the call returns is dropped). -/
def runCall (c : HandlesInternal) (size : Nat) (enumValue : HAL_HandleEnum)
    (call : Call TStruct) (p : LimitedClassedHandleResource TStruct) :
    Outcome (LimitedClassedHandleResource TStruct) :=
  match call with
  | .allocate toSet => (Allocate c size enumValue toSet p).bind fun hp => .ok hp.2
  | .get handle => (Get c size enumValue handle p).bind fun vp => .ok vp.2
  | .free handle => Free c size enumValue handle p

/-- The pool after the calls of the list, made one after the other. -/
def runCalls (c : HandlesInternal) (size : Nat) (enumValue : HAL_HandleEnum) :
    List (Call TStruct) → LimitedClassedHandleResource TStruct →
    Outcome (LimitedClassedHandleResource TStruct)
  | [], p => .ok p
  | call :: rest, p =>
    (runCall c size enumValue call p).bind fun p' => runCalls c size enumValue rest p'

/-- One `Allocate` call for each resource of the list, in order; the handles
returned, in the same order, and the pool afterwards. -/
def allocateAll (c : HandlesInternal) (size : Nat) (enumValue : HAL_HandleEnum) :
    List TStruct → LimitedClassedHandleResource TStruct →
    Outcome (List HAL_Handle × LimitedClassedHandleResource TStruct)
  | [], p => .ok ([], p)
  | r :: rest, p =>
    (Allocate c size enumValue (some r) p).bind fun hp =>
      (allocateAll c size enumValue rest hp.2).bind fun hsp =>
        .ok (hp.1 :: hsp.1, hsp.2)

/-- What the calls of the example for capacity 2 return, in the order of the
calls. -/
structure ExampleResults (TStruct : Type) where
  allocateA : HAL_Handle
  allocateB : HAL_Handle
  allocateC : HAL_Handle
  allocateCAgain : HAL_Handle
  getH1 : SharedPtr TStruct
  getH3 : SharedPtr TStruct
  getH2 : SharedPtr TStruct
  deriving DecidableEq, Repr

/-- The example run on a new pool of capacity 2: `Allocate(A)` gives `h1`,
`Allocate(B)` gives `h2`, `Allocate(C)`, `Free(h1)`, `Allocate(C)` gives
`h3`, then `Get(h1)`, `Get(h3)`, `Get(h2)`. -/
def exampleRun (c : HandlesInternal) (enumValue : HAL_HandleEnum) (A B C : TStruct) :
    Outcome (ExampleResults TStruct) :=
  (Allocate c 2 enumValue (some A) (construct 2)).bind fun (h1, p1) =>
  (Allocate c 2 enumValue (some B) p1).bind fun (h2, p2) =>
  (Allocate c 2 enumValue (some C) p2).bind fun (hFull, p3) =>
  (Free c 2 enumValue h1 p3).bind fun p4 =>
  (Allocate c 2 enumValue (some C) p4).bind fun (h3, p5) =>
  (Get c 2 enumValue h1 p5).bind fun (g1, p6) =>
  (Get c 2 enumValue h3 p6).bind fun (g3, p7) =>
  (Get c 2 enumValue h2 p7).bind fun (g2, _) =>
  .ok ⟨h1, h2, hFull, h3, g1, g3, g2⟩

/-- The results the example gives for its calls, with `getH1` for what
`Get(h1)` returns at the end: `h1` and `h3` are the handles of index 0, `h2` is
the handle of index 1, the third `Allocate` returns the sentinel, `Get(h3)`
returns `C` and `Get(h2)` returns `B`. -/
def exampleExpected (c : HandlesInternal) (enumValue : HAL_HandleEnum)
    (getH1 : SharedPtr TStruct) (B C : TStruct) : ExampleResults TStruct where
  allocateA := c.createHandle 0 enumValue
  allocateB := c.createHandle 1 enumValue
  allocateC := c.HAL_kInvalidHandle
  allocateCAgain := c.createHandle 0 enumValue
  getH1 := getH1
  getH3 := some C
  getH2 := some B

/-! ## The subscripts of `m_structures` -/

/-- The subscripts with which the loop of `Allocate` indexes `m_structures`
(and `m_handleMutexes`), in the order of the accesses, entered with the
counter at `i` and `n = size - i` rounds to go: the read of the test
`m_structures[i] == nullptr` in every round and, on an empty slot, the write
`m_structures[i] = toSet`, after which the function returns. -/
def allocateLoopAccesses (p : LimitedClassedHandleResource TStruct) : Nat → Nat → List Int
  | _, 0 => []
  | i, n + 1 =>
    match readSlot p i with
    | .outOfBounds => [(i : Int)]
    | .ok none => [(i : Int), (i : Int)]
    | .ok (some _) => (i : Int) :: allocateLoopAccesses p (i + 1) n

/-- The subscripts with which `Allocate` indexes `m_structures`. -/
def AllocateAccesses (size : Nat) (p : LimitedClassedHandleResource TStruct) : List Int :=
  allocateLoopAccesses p 0 size

/-- The subscripts with which `Get` indexes `m_structures`: none on the early
return, `index` for `return m_structures[index]`. -/
def GetAccesses (c : HandlesInternal) (size : Nat) (enumValue : HAL_HandleEnum)
    (handle : HAL_Handle) : List Int :=
  let index : Int := c.getHandleTypedIndex handle enumValue
  if index < 0 ∨ index ≥ (size : Int) then [] else [index]

/-- The subscripts with which `Free` indexes `m_structures`: none on the early
return, `index` for `m_structures[index].reset()`. -/
def FreeAccesses (c : HandlesInternal) (size : Nat) (enumValue : HAL_HandleEnum)
    (handle : HAL_Handle) : List Int :=
  let index : Int := c.getHandleTypedIndex handle enumValue
  if index < 0 ∨ index ≥ (size : Int) then [] else [index]

/-- The number of occupied (non-null) slots of the pool. -/
def occupiedCount (p : LimitedClassedHandleResource TStruct) : Nat :=
  (p.m_structures.filter fun v => v.isSome).length

/-- What `Allocate(nullptr)` is said to do on the pool `p`: for the lowest
empty index `i` it returns `createHandle(i, enumValue)`, which is not the
sentinel, and leaves the pool as it was; the next `Allocate`, of any
reference, returns the same handle; and `Get` of the handle returns the null
reference. -/
abbrev AllocateNullOutcome (c : HandlesInternal) (size : Nat) (enumValue : HAL_HandleEnum)
    (p : LimitedClassedHandleResource TStruct) : Prop :=
  ∃ i, i < size ∧ FirstEmpty p i ∧
    Allocate c size enumValue none p = .ok (c.createHandle (i : Int) enumValue, p) ∧
    c.createHandle (i : Int) enumValue ≠ c.HAL_kInvalidHandle ∧
    (∀ toSet : SharedPtr TStruct, ∃ p',
      Allocate c size enumValue toSet p = .ok (c.createHandle (i : Int) enumValue, p')) ∧
    Get c size enumValue (c.createHandle (i : Int) enumValue) p = .ok (none, p)

/-! ## Assumptions on the handle codec -/

/-- Decoding under the pool's tag inverts encoding on the indices of the pool:
`getHandleTypedIndex(createHandle(i, enumValue), enumValue) = i` for
`0 ≤ i < size`. -/
abbrev RoundTrips (c : HandlesInternal) (size : Nat) (enumValue : HAL_HandleEnum) : Prop :=
  ∀ i : Nat, i < size →
    c.getHandleTypedIndex (c.createHandle (i : Int) enumValue) enumValue = (i : Int)

/-- Encoding is injective on the indices of the pool. -/
abbrev EncodeInjective (c : HandlesInternal) (size : Nat) (enumValue : HAL_HandleEnum) :
    Prop :=
  ∀ i : Nat, i < size → ∀ j : Nat, j < size →
    c.createHandle (i : Int) enumValue = c.createHandle (j : Int) enumValue → i = j

/-- Encoding an index of the pool never gives the sentinel. -/
abbrev EncodeValid (c : HandlesInternal) (size : Nat) (enumValue : HAL_HandleEnum) : Prop :=
  ∀ i : Nat, i < size → c.createHandle (i : Int) enumValue ≠ c.HAL_kInvalidHandle

end LimitedClassedHandleResource

/-- Modelled from the spec: the handle codec of `HAL/handles/HandlesInternal.h`
and the sentinel of `HAL/Types.h` are not among the sources. The spec asks of a
codec that it "encodes a slot index and a type tag into an opaque handle
value, and decodes a handle back into a slot index, validating the type tag;
returns a sentinel/negative value on mismatch". This codec keeps the index in
the low 16 bits and the tag above bit 24, decodes a handle of another tag to
`-1`, and has the sentinel `0`. It serves as a concrete codec in examples. -/
def sampleHandles : HandlesInternal where
  HAL_kInvalidHandle := 0
  createHandle := fun index handleType => index + handleType * 16777216
  getHandleTypedIndex := fun handle enumType =>
    if handle / 16777216 = enumType then handle % 65536 else -1

/-- A codec that encodes as `sampleHandles` does and decodes every handle to the
index 0: its decode does not invert its encode on the index 1. It shows what
the pool does with a codec that breaks the round trip. -/
def constantDecodeHandles : HandlesInternal where
  HAL_kInvalidHandle := 0
  createHandle := fun index handleType => index + handleType * 16777216
  getHandleTypedIndex := fun _ _ => 0

namespace LimitedClassedHandleResource

variable {TStruct : Type}

/-! ## The loop of `Allocate` -/

theorem readSlot_of_holds (p : LimitedClassedHandleResource TStruct) (i : Nat)
    (v : SharedPtr TStruct) (h : SlotHolds p i v) : readSlot p i = .ok v := by
  simp only [SlotHolds] at h
  simp [readSlot, h]

theorem writeSlot_of_lt (p : LimitedClassedHandleResource TStruct) (i : Nat)
    (v : SharedPtr TStruct) (h : i < p.m_structures.length) :
    writeSlot p i v = .ok ⟨p.m_structures.set i v⟩ := by
  simp [writeSlot, h]

theorem lt_length_of_holds (p : LimitedClassedHandleResource TStruct) (i : Nat)
    (v : SharedPtr TStruct) (h : SlotHolds p i v) : i < p.m_structures.length := by
  simp only [SlotHolds] at h
  by_contra hge
  rw [List.getElem?_eq_none (Nat.le_of_not_lt hge)] at h
  exact Option.noConfusion h

/-- The loop stops at the first empty slot at or after its counter, stores
the reference there and returns the handle made from that index. -/
theorem allocateLoop_first (c : HandlesInternal) (enumValue : HAL_HandleEnum)
    (toSet : SharedPtr TStruct) (p : LimitedClassedHandleResource TStruct) (k : Nat)
    (hempty : SlotEmpty p k) :
    ∀ (n i : Nat), i ≤ k → k < i + n →
      (∀ j, i ≤ j → j < k → ¬ SlotEmpty p j) →
      allocateLoop c enumValue toSet p i n
        = .ok (c.createHandle (k : Int) enumValue, ⟨p.m_structures.set k toSet⟩) := by
  have hklen := lt_length_of_holds p k none hempty
  intro n
  induction n with
  | zero => intro i h1 h2; omega
  | succ n ih =>
    intro i hik hkn hocc
    by_cases hk : i = k
    · subst hk
      simp [allocateLoop, readSlot_of_holds p i none hempty, writeSlot_of_lt p i toSet hklen]
    · have hlt : i < k := by omega
      have hi : i < p.m_structures.length := by omega
      have hne : ¬ SlotEmpty p i := hocc i (le_refl i) hlt
      cases hv : p.m_structures[i]? with
      | none =>
        rw [List.getElem?_eq_none_iff] at hv
        omega
      | some v =>
        cases v with
        | none => exact absurd hv hne
        | some r =>
          have hrec := ih (i + 1) (by omega) (by omega)
            (fun j hj hjk => hocc j (by omega) hjk)
          simp [allocateLoop, readSlot_of_holds p i (some r) hv, hrec]

/-- The loop runs to its end over occupied slots and the sentinel is
returned, the pool as it was. -/
theorem allocateLoop_occupied (c : HandlesInternal) (enumValue : HAL_HandleEnum)
    (toSet : SharedPtr TStruct) (p : LimitedClassedHandleResource TStruct) :
    ∀ (n i : Nat), i + n ≤ p.m_structures.length →
      (∀ j, i ≤ j → j < i + n → ¬ SlotEmpty p j) →
      allocateLoop c enumValue toSet p i n = .ok (c.HAL_kInvalidHandle, p) := by
  intro n
  induction n with
  | zero => intro i _ _; rfl
  | succ n ih =>
    intro i hlen hocc
    have hne : ¬ SlotEmpty p i := hocc i (le_refl i) (by omega)
    cases hv : p.m_structures[i]? with
    | none =>
      rw [List.getElem?_eq_none_iff] at hv
      omega
    | some v =>
      cases v with
      | none => exact absurd hv hne
      | some r =>
        have hrec := ih (i + 1) (by omega) (fun j hj hjk => hocc j (by omega) (by omega))
        simp [allocateLoop, readSlot_of_holds p i (some r) hv, hrec]

theorem Allocate_of_firstEmpty (c : HandlesInternal) (size : Nat)
    (enumValue : HAL_HandleEnum) (toSet : SharedPtr TStruct)
    (p : LimitedClassedHandleResource TStruct) (k : Nat)
    (hwf : WellFormed size p) (hk : FirstEmpty p k) :
    Allocate c size enumValue toSet p
      = .ok (c.createHandle (k : Int) enumValue, ⟨p.m_structures.set k toSet⟩) := by
  have hklen := lt_length_of_holds p k none hk.1
  simp only [WellFormed] at hwf
  exact allocateLoop_first c enumValue toSet p k hk.1 size 0 (Nat.zero_le k) (by omega)
    (fun j _ hjk => hk.2 j hjk)

theorem not_slotEmpty_of_full (p : LimitedClassedHandleResource TStruct) (hfull : Full p)
    (j : Nat) : ¬ SlotEmpty p j := by
  intro h
  exact hfull none (List.getElem?_mem h) rfl

theorem Allocate_of_full (c : HandlesInternal) (size : Nat)
    (enumValue : HAL_HandleEnum) (toSet : SharedPtr TStruct)
    (p : LimitedClassedHandleResource TStruct)
    (hwf : WellFormed size p) (hfull : Full p) :
    Allocate c size enumValue toSet p = .ok (c.HAL_kInvalidHandle, p) := by
  simp only [WellFormed] at hwf
  exact allocateLoop_occupied c enumValue toSet p size 0 (by omega)
    (fun j _ _ => not_slotEmpty_of_full p hfull j)

theorem exists_firstEmpty (p : LimitedClassedHandleResource TStruct)
    (h : ∃ j, SlotEmpty p j) : ∃ i, FirstEmpty p i := by
  classical
  exact ⟨Nat.find h, Nat.find_spec h, fun j hj => Nat.find_min h hj⟩

theorem full_of_no_empty (p : LimitedClassedHandleResource TStruct)
    (h : ∀ j, ¬ SlotEmpty p j) : Full p := by
  intro v hv hnone
  obtain ⟨n, hn⟩ := List.mem_iff_getElem?.mp hv
  exact h n (by subst hnone; exact hn)

/-- On a pool with `size` slots `Allocate` does one of two things. -/
theorem Allocate_cases (c : HandlesInternal) (size : Nat)
    (enumValue : HAL_HandleEnum) (toSet : SharedPtr TStruct)
    (p : LimitedClassedHandleResource TStruct) (hwf : WellFormed size p) :
    (Full p ∧ Allocate c size enumValue toSet p = .ok (c.HAL_kInvalidHandle, p)) ∨
    (∃ k, FirstEmpty p k ∧ Allocate c size enumValue toSet p
      = .ok (c.createHandle (k : Int) enumValue, ⟨p.m_structures.set k toSet⟩)) := by
  by_cases h : ∃ j, SlotEmpty p j
  · obtain ⟨k, hk⟩ := exists_firstEmpty p h
    exact Or.inr ⟨k, hk, Allocate_of_firstEmpty c size enumValue toSet p k hwf hk⟩
  · have hfull : Full p := full_of_no_empty p (fun j hj => h ⟨j, hj⟩)
    exact Or.inl ⟨hfull, Allocate_of_full c size enumValue toSet p hwf hfull⟩

/-! ## `Get` and `Free` -/

theorem Get_of_invalid (c : HandlesInternal) (size : Nat) (enumValue : HAL_HandleEnum)
    (handle : HAL_Handle) (p : LimitedClassedHandleResource TStruct)
    (h : c.getHandleTypedIndex handle enumValue < 0 ∨
      c.getHandleTypedIndex handle enumValue ≥ (size : Int)) :
    Get c size enumValue handle p = .ok (none, p) := by
  simp only [Get]
  rw [if_pos h]

theorem Free_of_invalid (c : HandlesInternal) (size : Nat) (enumValue : HAL_HandleEnum)
    (handle : HAL_Handle) (p : LimitedClassedHandleResource TStruct)
    (h : c.getHandleTypedIndex handle enumValue < 0 ∨
      c.getHandleTypedIndex handle enumValue ≥ (size : Int)) :
    Free c size enumValue handle p = .ok p := by
  simp only [Free]
  rw [if_pos h]

theorem Get_of_index (c : HandlesInternal) (size : Nat) (enumValue : HAL_HandleEnum)
    (handle : HAL_Handle) (p : LimitedClassedHandleResource TStruct) (i : Nat)
    (v : SharedPtr TStruct) (hi : i < size)
    (hdec : c.getHandleTypedIndex handle enumValue = (i : Int))
    (hv : SlotHolds p i v) :
    Get c size enumValue handle p = .ok (v, p) := by
  have hvalid : ¬ ((i : Int) < 0 ∨ (i : Int) ≥ (size : Int)) := by omega
  simp only [Get, hdec]
  rw [if_neg hvalid]
  simp [readSlot_of_holds p i v hv]

theorem Free_of_index (c : HandlesInternal) (size : Nat) (enumValue : HAL_HandleEnum)
    (handle : HAL_Handle) (p : LimitedClassedHandleResource TStruct) (i : Nat)
    (hi : i < size) (hwf : WellFormed size p)
    (hdec : c.getHandleTypedIndex handle enumValue = (i : Int)) :
    Free c size enumValue handle p = .ok ⟨p.m_structures.set i none⟩ := by
  have hvalid : ¬ ((i : Int) < 0 ∨ (i : Int) ≥ (size : Int)) := by omega
  simp only [WellFormed] at hwf
  simp only [Free, hdec]
  rw [if_neg hvalid]
  simp [writeSlot_of_lt p i none (by omega)]

theorem slotHolds_set_self (p : LimitedClassedHandleResource TStruct) (i : Nat)
    (v : SharedPtr TStruct) (hi : i < p.m_structures.length) :
    SlotHolds (⟨p.m_structures.set i v⟩ : LimitedClassedHandleResource TStruct) i v := by
  simp [SlotHolds, hi]

/-- An index the two guards of `Get` and `Free` let through is a natural
number below `size`. -/
theorem index_of_valid (x : Int) (size : Nat) (h : ¬ (x < 0 ∨ x ≥ (size : Int))) :
    ∃ i : Nat, i < size ∧ x = (i : Int) :=
  ⟨x.toNat, by omega, by omega⟩

/-! ## The contract of `Allocate` -/

/-- C1 (first-fit allocation). On a pool of `size` slots of which at least
one is empty, `Allocate(toSet)` returns `createHandle(i, enumValue)` for the
lowest index `i` in `[0, size)` whose slot is empty, and in the pool after the
call slot `i` holds `toSet`. -/
theorem allocate_first_fit (c : HandlesInternal) (size : Nat)
    (enumValue : HAL_HandleEnum) (toSet : SharedPtr TStruct)
    (p : LimitedClassedHandleResource TStruct)
    (hwf : WellFormed size p) (hfree : ∃ j, SlotEmpty p j) :
    ∃ i p', i < size ∧ FirstEmpty p i ∧
      Allocate c size enumValue toSet p = .ok (c.createHandle (i : Int) enumValue, p') ∧
      SlotHolds p' i toSet := by
  obtain ⟨i, hi⟩ := exists_firstEmpty p hfree
  have hlen := lt_length_of_holds p i none hi.1
  refine ⟨i, ⟨p.m_structures.set i toSet⟩, ?_, hi, ?_, ?_⟩
  · simp only [WellFormed] at hwf
    omega
  · exact Allocate_of_firstEmpty c size enumValue toSet p i hwf hi
  · exact slotHolds_set_self p i toSet hlen

theorem allocate_first_fit_witness :
    (WellFormed 3 (⟨[some 10, none, none]⟩ : LimitedClassedHandleResource Nat) ∧
      ∃ j, SlotEmpty (⟨[some 10, none, none]⟩ : LimitedClassedHandleResource Nat) j) ∧
    ∃ i p', i < 3 ∧
      FirstEmpty (⟨[some 10, none, none]⟩ : LimitedClassedHandleResource Nat) i ∧
      Allocate sampleHandles 3 1 (some 20) ⟨[some 10, none, none]⟩
        = .ok (sampleHandles.createHandle (i : Int) 1, p') ∧
      SlotHolds p' i (some 20) :=
  ⟨⟨by decide, ⟨1, by decide⟩⟩,
    allocate_first_fit sampleHandles 3 1 (some 20) ⟨[some 10, none, none]⟩ (by decide)
      ⟨1, by decide⟩⟩

/-- C2 (exhaustion). On a pool of `size` slots that are all occupied,
`Allocate(toSet)` returns `HAL_kInvalidHandle` and the pool after the call is
the pool before it. -/
theorem allocate_exhausted (c : HandlesInternal) (size : Nat)
    (enumValue : HAL_HandleEnum) (toSet : SharedPtr TStruct)
    (p : LimitedClassedHandleResource TStruct)
    (hwf : WellFormed size p) (hfull : Full p) :
    Allocate c size enumValue toSet p = .ok (c.HAL_kInvalidHandle, p) :=
  Allocate_of_full c size enumValue toSet p hwf hfull

theorem allocate_exhausted_witness :
    (WellFormed 2 (⟨[some 10, some 20]⟩ : LimitedClassedHandleResource Nat) ∧
      Full (⟨[some 10, some 20]⟩ : LimitedClassedHandleResource Nat)) ∧
    Allocate sampleHandles 2 1 (some 30) ⟨[some 10, some 20]⟩
      = .ok (sampleHandles.HAL_kInvalidHandle, ⟨[some 10, some 20]⟩) :=
  ⟨⟨by decide, by decide⟩,
    allocate_exhausted sampleHandles 2 1 (some 30) ⟨[some 10, some 20]⟩ (by decide)
      (by decide)⟩

/-! ## The contract of `Get` and `Free` -/

/-- C6 (`Get` after `Free`). For every pool of `size` slots and every handle,
valid or not, `Free(handle)` returns and `Get(handle)` on the pool it leaves
returns the null reference. -/
theorem get_after_free (c : HandlesInternal) (size : Nat)
    (enumValue : HAL_HandleEnum) (handle : HAL_Handle)
    (p : LimitedClassedHandleResource TStruct) (hwf : WellFormed size p) :
    ∃ p', Free c size enumValue handle p = .ok p' ∧
      Get c size enumValue handle p' = .ok (none, p') := by
  by_cases h : c.getHandleTypedIndex handle enumValue < 0 ∨
      c.getHandleTypedIndex handle enumValue ≥ (size : Int)
  · exact ⟨p, Free_of_invalid c size enumValue handle p h,
      Get_of_invalid c size enumValue handle p h⟩
  · obtain ⟨i, hi, hdec⟩ := index_of_valid _ size h
    have hlen : i < p.m_structures.length := by
      simp only [WellFormed] at hwf
      omega
    exact ⟨⟨p.m_structures.set i none⟩,
      Free_of_index c size enumValue handle p i hi hwf hdec,
      Get_of_index c size enumValue handle _ i none hi hdec
        (slotHolds_set_self p i none hlen)⟩

theorem get_after_free_witness :
    WellFormed 2 (⟨[some 10, some 20]⟩ : LimitedClassedHandleResource Nat) ∧
    ∃ p', Free sampleHandles 2 1 16777217 ⟨[some 10, some 20]⟩ = .ok p' ∧
      Get sampleHandles 2 1 16777217 p' = .ok (none, p') :=
  ⟨by decide, get_after_free sampleHandles 2 1 16777217 ⟨[some 10, some 20]⟩ (by decide)⟩

/-- C7 (foreign and out-of-range handles). For every pool, whatever its
slots hold, and every handle for which `getHandleTypedIndex(handle,
enumValue)` is negative or not below `size`, `Get(handle)` returns the null
reference and `Free(handle)` leaves the pool as it was; and `Get(handle)`
returns a non-null reference only if the handle decodes under the pool's tag
to an index in `[0, size)`. -/
theorem reject_invalid_handle (c : HandlesInternal) (size : Nat)
    (enumValue : HAL_HandleEnum) (handle : HAL_Handle)
    (p : LimitedClassedHandleResource TStruct) :
    ((c.getHandleTypedIndex handle enumValue < 0 ∨
        c.getHandleTypedIndex handle enumValue ≥ (size : Int)) →
      Get c size enumValue handle p = .ok (none, p) ∧
      Free c size enumValue handle p = .ok p) ∧
    (∀ (r : TStruct) (p' : LimitedClassedHandleResource TStruct),
      Get c size enumValue handle p = .ok (some r, p') →
      0 ≤ c.getHandleTypedIndex handle enumValue ∧
      c.getHandleTypedIndex handle enumValue < (size : Int)) := by
  constructor
  · intro h
    exact ⟨Get_of_invalid c size enumValue handle p h,
      Free_of_invalid c size enumValue handle p h⟩
  · intro r p' hget
    by_contra hbad
    have h : c.getHandleTypedIndex handle enumValue < 0 ∨
        c.getHandleTypedIndex handle enumValue ≥ (size : Int) := by omega
    rw [Get_of_invalid c size enumValue handle p h] at hget
    cases hget

/-- The handle `33554432` is `createHandle(0, 2)`: the index is that of an
occupied slot and the tag is not the tag `1` of the pool. -/
theorem reject_invalid_handle_witness :
    (sampleHandles.createHandle 0 2 = 33554432 ∧
      sampleHandles.getHandleTypedIndex 33554432 1 < 0) ∧
    Get sampleHandles 2 1 33554432 (⟨[some 10, some 20]⟩ : LimitedClassedHandleResource Nat)
      = .ok (none, ⟨[some 10, some 20]⟩) ∧
    Free sampleHandles 2 1 33554432 (⟨[some 10, some 20]⟩ : LimitedClassedHandleResource Nat)
      = .ok ⟨[some 10, some 20]⟩ :=
  ⟨⟨by decide, by decide⟩,
    (reject_invalid_handle sampleHandles 2 1 33554432 ⟨[some 10, some 20]⟩).1
      (Or.inl (by decide))⟩

/-- C8 (frame of `Free`). For every pool of `size` slots and every handle
that decodes to an index `i` in `[0, size)`, after `Free(handle)` slot `i` is
empty and every slot `j ≠ i` holds the reference it held before the call. -/
theorem free_frame (c : HandlesInternal) (size : Nat)
    (enumValue : HAL_HandleEnum) (handle : HAL_Handle)
    (p : LimitedClassedHandleResource TStruct) (i : Nat)
    (hwf : WellFormed size p) (hi : i < size)
    (hdec : c.getHandleTypedIndex handle enumValue = (i : Int)) :
    ∃ p', Free c size enumValue handle p = .ok p' ∧ WellFormed size p' ∧
      SlotEmpty p' i ∧
      ∀ j, j ≠ i → p'.m_structures[j]? = p.m_structures[j]? := by
  have hlen : i < p.m_structures.length := by
    simp only [WellFormed] at hwf
    omega
  refine ⟨⟨p.m_structures.set i none⟩,
    Free_of_index c size enumValue handle p i hi hwf hdec, ?_,
    slotHolds_set_self p i none hlen, ?_⟩
  · simpa [WellFormed] using hwf
  · intro j hj
    simp [List.getElem?_set_ne (Ne.symm hj)]

theorem free_frame_witness :
    (WellFormed 3 (⟨[some 10, some 20, none]⟩ : LimitedClassedHandleResource Nat) ∧
      1 < 3 ∧ sampleHandles.getHandleTypedIndex 16777217 1 = ((1 : Nat) : Int)) ∧
    ∃ p', Free sampleHandles 3 1 16777217 ⟨[some 10, some 20, none]⟩ = .ok p' ∧
      WellFormed 3 p' ∧ SlotEmpty p' 1 ∧
      ∀ j, j ≠ 1 → p'.m_structures[j]?
        = (⟨[some 10, some 20, none]⟩ : LimitedClassedHandleResource Nat).m_structures[j]? :=
  ⟨⟨by decide, by decide, by decide⟩,
    free_frame sampleHandles 3 1 16777217 ⟨[some 10, some 20, none]⟩ 1 (by decide)
      (by decide) (by decide)⟩

/-- C9 (slot reuse). With a codec that round-trips the indices in
`[0, size)`, on a pool whose `size` slots are all occupied: after `Free` of
the handle of slot `k` the next `Allocate(toSet)` returns a handle that decodes
to `k`. With `k = 0` the freed slot is slot 0. -/
theorem free_then_allocate_reuses (c : HandlesInternal) (size : Nat)
    (enumValue : HAL_HandleEnum) (toSet : SharedPtr TStruct)
    (p : LimitedClassedHandleResource TStruct) (k : Nat)
    (hwf : WellFormed size p) (hfull : Full p)
    (hrt : RoundTrips c size enumValue) (hk : k < size) :
    ∃ p1 h p2,
      Free c size enumValue (c.createHandle (k : Int) enumValue) p = .ok p1 ∧
      Allocate c size enumValue toSet p1 = .ok (h, p2) ∧
      c.getHandleTypedIndex h enumValue = (k : Int) := by
  have hlen : k < p.m_structures.length := by
    simp only [WellFormed] at hwf
    omega
  have hfirst : FirstEmpty (⟨p.m_structures.set k none⟩ :
      LimitedClassedHandleResource TStruct) k := by
    refine ⟨slotHolds_set_self p k none hlen, ?_⟩
    intro j hj hempty
    simp only [SlotEmpty, SlotHolds] at hempty
    rw [List.getElem?_set_ne (by omega)] at hempty
    exact not_slotEmpty_of_full p hfull j hempty
  refine ⟨⟨p.m_structures.set k none⟩, c.createHandle (k : Int) enumValue,
    ⟨(p.m_structures.set k none).set k toSet⟩,
    Free_of_index c size enumValue _ p k hk hwf (hrt k hk), ?_, hrt k hk⟩
  exact Allocate_of_firstEmpty c size enumValue toSet _ k (by simpa [WellFormed] using hwf)
    hfirst

theorem free_then_allocate_reuses_witness :
    (WellFormed 2 (⟨[some 10, some 20]⟩ : LimitedClassedHandleResource Nat) ∧
      Full (⟨[some 10, some 20]⟩ : LimitedClassedHandleResource Nat) ∧
      RoundTrips sampleHandles 2 1 ∧ 0 < 2) ∧
    ∃ p1 h p2,
      Free sampleHandles 2 1 (sampleHandles.createHandle ((0 : Nat) : Int) 1)
        (⟨[some 10, some 20]⟩ : LimitedClassedHandleResource Nat) = .ok p1 ∧
      Allocate sampleHandles 2 1 (some 30) p1 = .ok (h, p2) ∧
      sampleHandles.getHandleTypedIndex h 1 = ((0 : Nat) : Int) :=
  ⟨⟨by decide, by decide, by decide, by decide⟩,
    free_then_allocate_reuses sampleHandles 2 1 (some 30) ⟨[some 10, some 20]⟩ 0
      (by decide) (by decide) (by decide) (by decide)⟩

/-! ## The example for capacity 2 -/

/-- C3, as the example states it, fails: with the sample codec, whose decode
inverts its encode on the indices 0 and 1, and the distinct resources 10, 20
and 30, the run does not give the results of the example with `Get(h1)`
returning the null reference. -/
theorem example_get_h1_empty_fails :
    RoundTrips sampleHandles 2 1 ∧
    exampleRun sampleHandles 1 (10 : Nat) 20 30
      ≠ .ok (exampleExpected sampleHandles 1 none 20 30) :=
  ⟨by decide, by decide⟩

/-- C3, amended. For capacity 2, from a new pool, with resources `A`, `B`,
`C` and a codec whose decode inverts encode on the indices 0 and 1:
`Allocate(A)` returns the handle `h1` of index 0, `Allocate(B)` the handle `h2`
of index 1, `Allocate(C)` the sentinel; after `Free(h1)`, `Allocate(C)` returns
the handle `h3` of index 0, which is `h1` again; then `Get(h1)` returns `C`,
`Get(h3)` returns `C` and `Get(h2)` returns `B`. -/
theorem example_run (c : HandlesInternal) (enumValue : HAL_HandleEnum) (A B C : TStruct)
    (hrt : RoundTrips c 2 enumValue) :
    exampleRun c enumValue A B C = .ok (exampleExpected c enumValue (some C) B C) := by
  have h0 := hrt 0 (by decide)
  have h1 := hrt 1 (by decide)
  simp only [Nat.cast_zero, Nat.cast_one] at h0 h1
  simp [exampleRun, exampleExpected, Allocate, allocateLoop, readSlot, writeSlot, construct,
    Outcome.bind, Free, Get, h0, h1, List.replicate]

theorem example_run_witness :
    RoundTrips sampleHandles 2 1 ∧
    exampleRun sampleHandles 1 (10 : Nat) 20 30
      = .ok (exampleExpected sampleHandles 1 (some 30) 20 30) :=
  ⟨by decide, example_run sampleHandles 1 10 20 30 (by decide)⟩

/-! ## Filling a new pool -/

theorem firstEmpty_after_filled (pre : List TStruct) (m : Nat) :
    FirstEmpty (⟨pre.map some ++ List.replicate (m + 1) none⟩ :
      LimitedClassedHandleResource TStruct) pre.length := by
  constructor
  · simp only [SlotEmpty, SlotHolds]
    rw [List.getElem?_append_right (by simp)]
    simp [List.replicate_succ]
  · intro j hj hempty
    simp only [SlotEmpty, SlotHolds] at hempty
    rw [List.getElem?_append_left (by simpa using hj)] at hempty
    simp at hempty

theorem set_after_filled (pre : List TStruct) (m : Nat) (r : TStruct) :
    (pre.map some ++ List.replicate (m + 1) none).set pre.length (some r)
      = (pre ++ [r]).map some ++ List.replicate m none := by
  induction pre with
  | nil => simp [List.replicate_succ]
  | cons a pre ih => simpa using ih

/-- Allocating the resources `rs` on a pool whose first slots hold `pre` and
whose other `m` slots are empty fills the next slots in order. -/
theorem allocateAll_after_filled (c : HandlesInternal) (size : Nat)
    (enumValue : HAL_HandleEnum) :
    ∀ (rs pre : List TStruct) (m : Nat), pre.length + m = size → rs.length ≤ m →
      allocateAll c size enumValue rs ⟨pre.map some ++ List.replicate m none⟩
        = .ok ((List.range' pre.length rs.length).map
                (fun i : Nat => c.createHandle (i : Int) enumValue),
              ⟨(pre ++ rs).map some ++ List.replicate (m - rs.length) none⟩) := by
  intro rs
  induction rs with
  | nil => intro pre m _ _; simp [allocateAll]
  | cons r rest ih =>
    intro pre m hsize hlen
    obtain ⟨m', rfl⟩ : ∃ m', m = m' + 1 := ⟨m - 1, by simp at hlen; omega⟩
    have hwf : WellFormed size (⟨pre.map some ++ List.replicate (m' + 1) none⟩ :
        LimitedClassedHandleResource TStruct) := by
      simp [WellFormed, hsize]
    have hstep := Allocate_of_firstEmpty c size enumValue (some r) _ pre.length hwf
      (firstEmpty_after_filled pre m')
    rw [set_after_filled] at hstep
    have hrec := ih (pre ++ [r]) m' (by simp; omega) (by simp at hlen; omega)
    simp only [List.length_append, List.length_singleton, List.append_assoc,
      List.singleton_append] at hrec
    simp only [allocateAll, hstep, Outcome.bind, hrec, List.length_cons, List.range'_succ,
      List.map_cons, Nat.add_sub_add_right]

/-- C4 (capacity). From a new pool of capacity `size`, with a codec whose
encode is injective on the indices below `size` and never gives the sentinel
for them: `size` allocations of resources return `size` handles, none of them
the sentinel and no two of them equal, and one more `Allocate`, of any
reference, returns the sentinel and leaves the pool as it was. The resources
need not be distinct for this. -/
theorem allocate_to_capacity (c : HandlesInternal) (size : Nat)
    (enumValue : HAL_HandleEnum) (rs : List TStruct)
    (hrs : rs.length = size)
    (hinj : EncodeInjective c size enumValue) (hvalid : EncodeValid c size enumValue) :
    ∃ hs p, allocateAll c size enumValue rs (construct size) = .ok (hs, p) ∧
      hs.length = size ∧ (∀ h, h ∈ hs → h ≠ c.HAL_kInvalidHandle) ∧ hs.Nodup ∧
      ∀ toSet : SharedPtr TStruct,
        Allocate c size enumValue toSet p = .ok (c.HAL_kInvalidHandle, p) := by
  have hrun := allocateAll_after_filled c size enumValue rs [] size (by simp) (by omega)
  simp only [List.map_nil, List.nil_append, List.length_nil, hrs, Nat.sub_self,
    List.replicate_zero, List.append_nil] at hrun
  refine ⟨_, _, hrun, by simp, ?_, ?_, ?_⟩
  · intro h hh
    simp only [List.mem_map, List.mem_range'_1] at hh
    obtain ⟨i, hi, rfl⟩ := hh
    exact hvalid i (by omega)
  · refine List.Nodup.map_on ?_ (List.nodup_range' 0 size)
    intro i hi j hj heq
    simp only [List.mem_range'_1] at hi hj
    exact hinj i (by omega) j (by omega) heq
  · intro toSet
    refine Allocate_of_full c size enumValue toSet _ (by simp [WellFormed, hrs]) ?_
    intro v hv
    simp only [List.mem_map] at hv
    obtain ⟨r, _, rfl⟩ := hv
    simp

theorem allocate_to_capacity_witness :
    ([10, 20, 30].length = 3 ∧ EncodeInjective sampleHandles 3 1 ∧
      EncodeValid sampleHandles 3 1) ∧
    ∃ hs p, allocateAll sampleHandles 3 1 [10, 20, 30] (construct 3) = .ok (hs, p) ∧
      hs.length = 3 ∧ (∀ h, h ∈ hs → h ≠ sampleHandles.HAL_kInvalidHandle) ∧ hs.Nodup ∧
      ∀ toSet : SharedPtr Nat,
        Allocate sampleHandles 3 1 toSet p = .ok (sampleHandles.HAL_kInvalidHandle, p) :=
  ⟨⟨by decide, by decide, by decide⟩,
    allocate_to_capacity sampleHandles 3 1 [10, 20, 30] (by decide) (by decide)
      (by decide)⟩

/-! ## Runs without `Free` -/

theorem Get_returns (c : HandlesInternal) (size : Nat) (enumValue : HAL_HandleEnum)
    (handle : HAL_Handle) (p : LimitedClassedHandleResource TStruct)
    (hwf : WellFormed size p) :
    ∃ v, Get c size enumValue handle p = .ok (v, p) := by
  by_cases h : c.getHandleTypedIndex handle enumValue < 0 ∨
      c.getHandleTypedIndex handle enumValue ≥ (size : Int)
  · exact ⟨none, Get_of_invalid c size enumValue handle p h⟩
  · obtain ⟨i, hi, hdec⟩ := index_of_valid _ size h
    have hlen : i < p.m_structures.length := by
      simp only [WellFormed] at hwf
      omega
    exact ⟨p.m_structures[i], Get_of_index c size enumValue handle p i _ hi hdec
      (List.getElem?_eq_getElem hlen)⟩

/-- A call that is not `Free` keeps the size of the pool and every occupied
slot. -/
theorem runCall_keeps_occupied (c : HandlesInternal) (size : Nat)
    (enumValue : HAL_HandleEnum) (call : Call TStruct)
    (p : LimitedClassedHandleResource TStruct) (i : Nat) (r : TStruct)
    (hwf : WellFormed size p) (hslot : SlotHolds p i (some r))
    (hcall : call.isFree = false) :
    ∃ p', runCall c size enumValue call p = .ok p' ∧ WellFormed size p' ∧
      SlotHolds p' i (some r) := by
  cases call with
  | allocate toSet =>
    rcases Allocate_cases c size enumValue toSet p hwf with ⟨_, hret⟩ | ⟨k, hk, hret⟩
    · exact ⟨p, by simp [runCall, hret, Outcome.bind], hwf, hslot⟩
    · refine ⟨⟨p.m_structures.set k toSet⟩, by simp [runCall, hret, Outcome.bind],
        by simpa [WellFormed] using hwf, ?_⟩
      have hne : k ≠ i := by
        intro hki
        subst hki
        have hempty : p.m_structures[k]? = some none := hk.1
        simp only [SlotHolds] at hslot
        rw [hslot] at hempty
        cases hempty
      simp only [SlotHolds]
      rw [List.getElem?_set_ne hne]
      exact hslot
  | get handle =>
    obtain ⟨v, hv⟩ := Get_returns c size enumValue handle p hwf
    exact ⟨p, by simp [runCall, hv, Outcome.bind], hwf, hslot⟩
  | free handle => simp [Call.isFree] at hcall

theorem runCalls_keeps_occupied (c : HandlesInternal) (size : Nat)
    (enumValue : HAL_HandleEnum) (i : Nat) (r : TStruct) :
    ∀ (calls : List (Call TStruct)) (p : LimitedClassedHandleResource TStruct),
      WellFormed size p → SlotHolds p i (some r) →
      (∀ call, call ∈ calls → call.isFree = false) →
      ∃ p', runCalls c size enumValue calls p = .ok p' ∧ WellFormed size p' ∧
        SlotHolds p' i (some r) := by
  intro calls
  induction calls with
  | nil => intro p hwf hslot _; exact ⟨p, rfl, hwf, hslot⟩
  | cons call rest ih =>
    intro p hwf hslot hcalls
    obtain ⟨p1, hrun1, hwf1, hslot1⟩ := runCall_keeps_occupied c size enumValue call p i r
      hwf hslot (hcalls call (List.mem_cons_self call rest))
    obtain ⟨p2, hrun2, hwf2, hslot2⟩ := ih p1 hwf1 hslot1
      (fun call' hmem => hcalls call' (List.mem_cons_of_mem call hmem))
    exact ⟨p2, by simp [runCalls, hrun1, Outcome.bind, hrun2], hwf2, hslot2⟩

/-- C5 (`Allocate`/`Get` round trip). With a codec for which
`getHandleTypedIndex(createHandle(i, enumValue), enumValue) = i` for
`0 ≤ i < size`, on a pool of `size` slots with an empty slot and for a
non-null reference to `r`: `Allocate` returns a handle `h` for which `Get(h)`
returns the reference to `r`, at once and after any further calls of
`Allocate` and `Get`, with any arguments, among which there is no `Free`. -/
theorem allocate_get_round_trip (c : HandlesInternal) (size : Nat)
    (enumValue : HAL_HandleEnum) (r : TStruct)
    (p : LimitedClassedHandleResource TStruct) (calls : List (Call TStruct))
    (hwf : WellFormed size p) (hfree : ∃ j, SlotEmpty p j)
    (hrt : RoundTrips c size enumValue)
    (hcalls : ∀ call, call ∈ calls → call.isFree = false) :
    ∃ h p1 p2, Allocate c size enumValue (some r) p = .ok (h, p1) ∧
      Get c size enumValue h p1 = .ok (some r, p1) ∧
      runCalls c size enumValue calls p1 = .ok p2 ∧
      Get c size enumValue h p2 = .ok (some r, p2) := by
  obtain ⟨k, hk⟩ := exists_firstEmpty p hfree
  have hlen := lt_length_of_holds p k none hk.1
  have hksize : k < size := by
    simp only [WellFormed] at hwf
    omega
  have hslot1 := slotHolds_set_self p k (some r) hlen
  have hwf1 : WellFormed size (⟨p.m_structures.set k (some r)⟩ :
      LimitedClassedHandleResource TStruct) := by
    simpa [WellFormed] using hwf
  obtain ⟨p2, hrun, _, hslot2⟩ := runCalls_keeps_occupied c size enumValue k r calls _
    hwf1 hslot1 hcalls
  exact ⟨c.createHandle (k : Int) enumValue, ⟨p.m_structures.set k (some r)⟩, p2,
    Allocate_of_firstEmpty c size enumValue (some r) p k hwf hk,
    Get_of_index c size enumValue _ _ k (some r) hksize (hrt k hksize) hslot1,
    hrun,
    Get_of_index c size enumValue _ p2 k (some r) hksize (hrt k hksize) hslot2⟩

theorem allocate_get_round_trip_witness :
    (WellFormed 3 (⟨[some 10, none, none]⟩ : LimitedClassedHandleResource Nat) ∧
      (∃ j, SlotEmpty (⟨[some 10, none, none]⟩ : LimitedClassedHandleResource Nat) j) ∧
      RoundTrips sampleHandles 3 1 ∧
      ∀ call, call ∈ [Call.allocate (some 30), Call.get 16777217, Call.allocate none,
        Call.allocate (some 40)] → call.isFree = false) ∧
    ∃ h p1 p2,
      Allocate sampleHandles 3 1 (some 20) ⟨[some 10, none, none]⟩ = .ok (h, p1) ∧
      Get sampleHandles 3 1 h p1 = .ok (some 20, p1) ∧
      runCalls sampleHandles 3 1 [Call.allocate (some 30), Call.get 16777217,
        Call.allocate none, Call.allocate (some 40)] p1 = .ok p2 ∧
      Get sampleHandles 3 1 h p2 = .ok (some 20, p2) :=
  ⟨⟨by decide, ⟨1, by decide⟩, by decide, by decide⟩,
    allocate_get_round_trip sampleHandles 3 1 20 ⟨[some 10, none, none]⟩
      [Call.allocate (some 30), Call.get 16777217, Call.allocate none,
        Call.allocate (some 40)]
      (by decide) ⟨1, by decide⟩ (by decide) (by decide)⟩

/-! ## What one call does to the slots -/

theorem Free_cases (c : HandlesInternal) (size : Nat) (enumValue : HAL_HandleEnum)
    (handle : HAL_Handle) (p : LimitedClassedHandleResource TStruct)
    (hwf : WellFormed size p) :
    Free c size enumValue handle p = .ok p ∨
    ∃ i : Nat, i < size ∧ c.getHandleTypedIndex handle enumValue = (i : Int) ∧
      Free c size enumValue handle p = .ok ⟨p.m_structures.set i none⟩ := by
  by_cases h : c.getHandleTypedIndex handle enumValue < 0 ∨
      c.getHandleTypedIndex handle enumValue ≥ (size : Int)
  · exact Or.inl (Free_of_invalid c size enumValue handle p h)
  · obtain ⟨i, hi, hdec⟩ := index_of_valid _ size h
    exact Or.inr ⟨i, hi, hdec, Free_of_index c size enumValue handle p i hi hwf hdec⟩

theorem set_none_of_empty (p : LimitedClassedHandleResource TStruct) (i : Nat)
    (h : SlotEmpty p i) : p.m_structures.set i none = p.m_structures := by
  apply List.ext_getElem?
  intro j
  by_cases hji : i = j
  · subst hji
    rw [List.getElem?_set_self (lt_length_of_holds p i none h)]
    exact h.symm
  · rw [List.getElem?_set_ne hji]

/-- Every call returns on a pool of `size` slots and leaves a pool of `size`
slots, in which a reference to `r` is in a slot only if it was in that slot
before or the call was `Allocate` of that reference. -/
theorem runCall_effect (c : HandlesInternal) (size : Nat)
    (enumValue : HAL_HandleEnum) (call : Call TStruct)
    (p : LimitedClassedHandleResource TStruct) (hwf : WellFormed size p) :
    ∃ p', runCall c size enumValue call p = .ok p' ∧ WellFormed size p' ∧
      ∀ j r, SlotHolds p' j (some r) →
        SlotHolds p j (some r) ∨ call = .allocate (some r) := by
  cases call with
  | allocate toSet =>
    rcases Allocate_cases c size enumValue toSet p hwf with ⟨_, hret⟩ | ⟨k, hk, hret⟩
    · exact ⟨p, by simp [runCall, hret, Outcome.bind], hwf, fun j r h => Or.inl h⟩
    · refine ⟨⟨p.m_structures.set k toSet⟩, by simp [runCall, hret, Outcome.bind],
        by simpa [WellFormed] using hwf, ?_⟩
      intro j r hj
      simp only [SlotHolds] at hj
      by_cases hkj : k = j
      · subst hkj
        rw [List.getElem?_set_self (lt_length_of_holds p k none hk.1)] at hj
        right
        rw [Option.some.inj hj]
      · rw [List.getElem?_set_ne hkj] at hj
        exact Or.inl hj
  | get handle =>
    obtain ⟨v, hv⟩ := Get_returns c size enumValue handle p hwf
    exact ⟨p, by simp [runCall, hv, Outcome.bind], hwf, fun j r h => Or.inl h⟩
  | free handle =>
    rcases Free_cases c size enumValue handle p hwf with hret | ⟨i, hi, _, hret⟩
    · exact ⟨p, by simp [runCall, hret], hwf, fun j r h => Or.inl h⟩
    · refine ⟨⟨p.m_structures.set i none⟩, by simp [runCall, hret],
        by simpa [WellFormed] using hwf, ?_⟩
      intro j r hj
      simp only [SlotHolds] at hj
      by_cases hij : i = j
      · subst hij
        have hlen : i < p.m_structures.length := by
          simp only [WellFormed] at hwf
          omega
        rw [List.getElem?_set_self hlen] at hj
        cases hj
      · rw [List.getElem?_set_ne hij] at hj
        exact Or.inl hj

theorem runCalls_effect (c : HandlesInternal) (size : Nat)
    (enumValue : HAL_HandleEnum) :
    ∀ (calls : List (Call TStruct)) (p : LimitedClassedHandleResource TStruct),
      WellFormed size p →
      ∃ p', runCalls c size enumValue calls p = .ok p' ∧ WellFormed size p' ∧
        ∀ j r, SlotHolds p' j (some r) →
          SlotHolds p j (some r) ∨ Call.allocate (some r) ∈ calls := by
  intro calls
  induction calls with
  | nil => intro p hwf; exact ⟨p, rfl, hwf, fun j r h => Or.inl h⟩
  | cons call rest ih =>
    intro p hwf
    obtain ⟨p1, hrun1, hwf1, hslots1⟩ := runCall_effect c size enumValue call p hwf
    obtain ⟨p2, hrun2, hwf2, hslots2⟩ := ih p1 hwf1
    refine ⟨p2, by simp [runCalls, hrun1, Outcome.bind, hrun2], hwf2, ?_⟩
    intro j r hj
    rcases hslots2 j r hj with h1 | hmem
    · rcases hslots1 j r h1 with h0 | hcall
      · exact Or.inl h0
      · exact Or.inr (by rw [hcall]; exact List.mem_cons_self _ _)
    · exact Or.inr (List.mem_cons_of_mem call hmem)

theorem construct_wellFormed (size : Nat) :
    WellFormed size (construct size : LimitedClassedHandleResource TStruct) := by
  simp [WellFormed, construct]

theorem construct_slot (size : Nat) (j : Nat) (v : SharedPtr TStruct)
    (h : SlotHolds (construct size : LimitedClassedHandleResource TStruct) j v) :
    v = none := by
  simp only [SlotHolds, construct] at h
  exact (List.eq_of_mem_replicate (List.getElem?_mem h))

/-! ## Frame and safety of the three members -/

/-- C11 (no double allocation, one thread). On every pool of `size` slots
and for every reference, `Allocate` returns and changes at most one slot; a
slot it changes was empty before the call; and a slot that was occupied before
the call holds the same reference after it. -/
theorem allocate_frame (c : HandlesInternal) (size : Nat)
    (enumValue : HAL_HandleEnum) (toSet : SharedPtr TStruct)
    (p : LimitedClassedHandleResource TStruct) (hwf : WellFormed size p) :
    ∃ h p', Allocate c size enumValue toSet p = .ok (h, p') ∧
      WellFormed size p' ∧
      (∀ j k : Nat, p'.m_structures[j]? ≠ p.m_structures[j]? →
        p'.m_structures[k]? ≠ p.m_structures[k]? → j = k) ∧
      (∀ j : Nat, p'.m_structures[j]? ≠ p.m_structures[j]? → SlotEmpty p j) ∧
      (∀ j r, SlotHolds p j (some r) → SlotHolds p' j (some r)) := by
  rcases Allocate_cases c size enumValue toSet p hwf with ⟨_, hret⟩ | ⟨i, hi, hret⟩
  · exact ⟨_, p, hret, hwf, fun j k hj _ => absurd rfl hj, fun j hj => absurd rfl hj,
      fun j r hj => hj⟩
  · have hchanged : ∀ j, (p.m_structures.set i toSet)[j]? ≠ p.m_structures[j]? → j = i := by
      intro j hj
      by_contra hne
      exact hj (List.getElem?_set_ne (Ne.symm hne))
    refine ⟨_, ⟨p.m_structures.set i toSet⟩, hret, by simpa [WellFormed] using hwf, ?_, ?_, ?_⟩
    · intro j k hj hk
      rw [hchanged j hj, hchanged k hk]
    · intro j hj
      rw [hchanged j hj]
      exact hi.1
    · intro j r hj
      have hne : i ≠ j := by
        intro hij
        subst hij
        have hempty : p.m_structures[i]? = some none := hi.1
        simp only [SlotHolds] at hj
        rw [hj] at hempty
        cases hempty
      simp only [SlotHolds]
      rw [List.getElem?_set_ne hne]
      exact hj

theorem allocate_frame_witness :
    WellFormed 3 (⟨[some 10, none, none]⟩ : LimitedClassedHandleResource Nat) ∧
    ∃ h p', Allocate sampleHandles 3 1 (some 20) ⟨[some 10, none, none]⟩ = .ok (h, p') ∧
      WellFormed 3 p' ∧
      (∀ j k : Nat, p'.m_structures[j]?
          ≠ (⟨[some 10, none, none]⟩ : LimitedClassedHandleResource Nat).m_structures[j]? →
        p'.m_structures[k]?
          ≠ (⟨[some 10, none, none]⟩ : LimitedClassedHandleResource Nat).m_structures[k]? →
        j = k) ∧
      (∀ j : Nat, p'.m_structures[j]?
          ≠ (⟨[some 10, none, none]⟩ : LimitedClassedHandleResource Nat).m_structures[j]? →
        SlotEmpty (⟨[some 10, none, none]⟩ : LimitedClassedHandleResource Nat) j) ∧
      (∀ j r, SlotHolds (⟨[some 10, none, none]⟩ : LimitedClassedHandleResource Nat) j
          (some r) → SlotHolds p' j (some r)) :=
  ⟨by decide, allocate_frame sampleHandles 3 1 (some 20) ⟨[some 10, none, none]⟩ (by decide)⟩

/-- C12 (`Get` is read-only). On every pool of `size` slots and for every
handle, valid, stale, of another tag or out of range, `Get` returns and the
pool after the call is the pool before it. -/
theorem get_read_only (c : HandlesInternal) (size : Nat)
    (enumValue : HAL_HandleEnum) (handle : HAL_Handle)
    (p : LimitedClassedHandleResource TStruct) (hwf : WellFormed size p) :
    ∃ v p', Get c size enumValue handle p = .ok (v, p') ∧ p' = p := by
  obtain ⟨v, hv⟩ := Get_returns c size enumValue handle p hwf
  exact ⟨v, p, hv, rfl⟩

theorem get_read_only_witness :
    WellFormed 2 (⟨[some 10, none]⟩ : LimitedClassedHandleResource Nat) ∧
    ∃ v p', Get sampleHandles 2 1 16777216 (⟨[some 10, none]⟩ :
        LimitedClassedHandleResource Nat) = .ok (v, p') ∧
      p' = ⟨[some 10, none]⟩ :=
  ⟨by decide, get_read_only sampleHandles 2 1 16777216 ⟨[some 10, none]⟩ (by decide)⟩

theorem allocateLoopAccesses_bounds (p : LimitedClassedHandleResource TStruct) :
    ∀ (n i : Nat) (x : Int), x ∈ allocateLoopAccesses p i n →
      (i : Int) ≤ x ∧ x < ((i + n : Nat) : Int) := by
  intro n
  induction n with
  | zero => intro i x hx; simp [allocateLoopAccesses] at hx
  | succ n ih =>
    intro i x hx
    simp only [allocateLoopAccesses] at hx
    cases hread : readSlot p i with
    | outOfBounds =>
      simp only [hread, List.mem_singleton] at hx
      omega
    | ok v =>
      cases v with
      | none =>
        simp only [hread, List.mem_cons, List.mem_singleton, or_self, List.not_mem_nil,
          or_false] at hx
        omega
      | some r =>
        simp only [hread, List.mem_cons] at hx
        rcases hx with hx | hx
        · omega
        · have := ih (i + 1) x hx
          omega

/-- C13 (totality and in-bounds access). On every pool of `size` slots, for
every reference, every handle and whatever index the decoding of the handle
gives, negative and not below `size` included: `Allocate`, `Get` and `Free`
return (a handle, which may be the sentinel; a reference, which may be null;
a pool) without an access outside the array, and every subscript `x` they use
on `m_structures` has `0 ≤ x < size`. -/
theorem members_total_in_bounds (c : HandlesInternal) (size : Nat)
    (enumValue : HAL_HandleEnum) (toSet : SharedPtr TStruct) (handle : HAL_Handle)
    (p : LimitedClassedHandleResource TStruct) (hwf : WellFormed size p) :
    (∃ h p', Allocate c size enumValue toSet p = .ok (h, p')) ∧
    (∃ v p', Get c size enumValue handle p = .ok (v, p')) ∧
    (∃ p', Free c size enumValue handle p = .ok p') ∧
    (∀ x, x ∈ AllocateAccesses size p → 0 ≤ x ∧ x < (size : Int)) ∧
    (∀ x, x ∈ GetAccesses c size enumValue handle → 0 ≤ x ∧ x < (size : Int)) ∧
    (∀ x, x ∈ FreeAccesses c size enumValue handle → 0 ≤ x ∧ x < (size : Int)) := by
  refine ⟨?_, ?_, ?_, ?_, ?_, ?_⟩
  · rcases Allocate_cases c size enumValue toSet p hwf with ⟨_, hret⟩ | ⟨i, _, hret⟩
    · exact ⟨_, _, hret⟩
    · exact ⟨_, _, hret⟩
  · obtain ⟨v, hv⟩ := Get_returns c size enumValue handle p hwf
    exact ⟨v, p, hv⟩
  · rcases Free_cases c size enumValue handle p hwf with hret | ⟨i, _, _, hret⟩
    · exact ⟨_, hret⟩
    · exact ⟨_, hret⟩
  · intro x hx
    have := allocateLoopAccesses_bounds p size 0 x hx
    simp only [Nat.zero_add] at this
    omega
  · intro x hx
    simp only [GetAccesses] at hx
    split at hx
    · simp at hx
    · simp only [List.mem_singleton] at hx
      omega
  · intro x hx
    simp only [FreeAccesses] at hx
    split at hx
    · simp at hx
    · simp only [List.mem_singleton] at hx
      omega

/-- The handle `16777221` decodes under the tag 1 to the index 5, which is
not below the size 2. -/
theorem members_total_in_bounds_witness :
    (WellFormed 2 (⟨[some 10, none]⟩ : LimitedClassedHandleResource Nat) ∧
      sampleHandles.getHandleTypedIndex 16777221 1 = 5) ∧
    (∃ h p', Allocate sampleHandles 2 1 (some 20) (⟨[some 10, none]⟩ :
        LimitedClassedHandleResource Nat) = .ok (h, p')) ∧
    (∃ v p', Get sampleHandles 2 1 16777221 (⟨[some 10, none]⟩ :
        LimitedClassedHandleResource Nat) = .ok (v, p')) ∧
    (∃ p', Free sampleHandles 2 1 16777221 (⟨[some 10, none]⟩ :
        LimitedClassedHandleResource Nat) = .ok p') ∧
    (∀ x, x ∈ AllocateAccesses 2 (⟨[some 10, none]⟩ : LimitedClassedHandleResource Nat) →
      0 ≤ x ∧ x < ((2 : Nat) : Int)) ∧
    (∀ x, x ∈ GetAccesses sampleHandles 2 1 16777221 → 0 ≤ x ∧ x < ((2 : Nat) : Int)) ∧
    (∀ x, x ∈ FreeAccesses sampleHandles 2 1 16777221 → 0 ≤ x ∧ x < ((2 : Nat) : Int)) :=
  ⟨⟨by decide, by decide⟩,
    members_total_in_bounds sampleHandles 2 1 (some 20) 16777221 ⟨[some 10, none]⟩
      (by decide)⟩

/-! ## Pools reached from a new pool -/

theorem slotHolds_of_Get (c : HandlesInternal) (size : Nat) (enumValue : HAL_HandleEnum)
    (handle : HAL_Handle) (p p' : LimitedClassedHandleResource TStruct) (r : TStruct)
    (hwf : WellFormed size p)
    (hget : Get c size enumValue handle p = .ok (some r, p')) :
    ∃ i, i < size ∧ SlotHolds p i (some r) := by
  by_cases h : c.getHandleTypedIndex handle enumValue < 0 ∨
      c.getHandleTypedIndex handle enumValue ≥ (size : Int)
  · rw [Get_of_invalid c size enumValue handle p h] at hget
    cases hget
  · obtain ⟨i, hi, hdec⟩ := index_of_valid _ size h
    have hlen : i < p.m_structures.length := by
      simp only [WellFormed] at hwf
      omega
    have hslot : SlotHolds p i p.m_structures[i] := List.getElem?_eq_getElem hlen
    rw [Get_of_index c size enumValue handle p i _ hi hdec hslot] at hget
    have hv : p.m_structures[i] = some r := by
      injection hget with hpair
      exact congrArg Prod.fst hpair
    exact ⟨i, hi, by rw [← hv]; exact hslot⟩

/-- C14 (only resources of the caller). Any sequence of `Allocate`, `Get`
and `Free` calls on a new pool returns, and in the pool it reaches every
non-null slot holds a reference that was the argument of an `Allocate` call
of the sequence; so every non-null reference that `Get` then returns was
passed to `Allocate` before. -/
theorem only_allocated_resources (c : HandlesInternal) (size : Nat)
    (enumValue : HAL_HandleEnum) (calls : List (Call TStruct)) :
    ∃ p, runCalls c size enumValue calls (construct size) = .ok p ∧
      (∀ j r, SlotHolds p j (some r) → Call.allocate (some r) ∈ calls) ∧
      (∀ handle r p', Get c size enumValue handle p = .ok (some r, p') →
        Call.allocate (some r) ∈ calls) := by
  obtain ⟨p, hrun, hwf, hslots⟩ := runCalls_effect c size enumValue calls (construct size)
    (construct_wellFormed size)
  have hfrom : ∀ j r, SlotHolds p j (some r) → Call.allocate (some r) ∈ calls := by
    intro j r hj
    rcases hslots j r hj with h0 | hmem
    · exact absurd (construct_slot size j (some r) h0) (by simp)
    · exact hmem
  refine ⟨p, hrun, hfrom, ?_⟩
  intro handle r p' hget
  obtain ⟨i, _, hi⟩ := slotHolds_of_Get c size enumValue handle p p' r hwf hget
  exact hfrom i r hi

/-- C15 (handles never allocated are stale). The constructor makes a pool of
exactly `size` slots, all of them empty, and on that pool `Get` returns the
null reference for every handle, those that decode to an index in `[0, size)`
included. -/
theorem get_on_new_pool (c : HandlesInternal) (size : Nat)
    (enumValue : HAL_HandleEnum) (handle : HAL_Handle) :
    (construct size : LimitedClassedHandleResource TStruct).m_structures.length = size ∧
    (∀ j, j < size → SlotEmpty (construct size : LimitedClassedHandleResource TStruct) j) ∧
    Get c size enumValue handle (construct size : LimitedClassedHandleResource TStruct)
      = .ok (none, construct size) := by
  have hempty : ∀ j, j < size →
      SlotEmpty (construct size : LimitedClassedHandleResource TStruct) j := by
    intro j hj
    simp [SlotEmpty, SlotHolds, construct, hj]
  refine ⟨construct_wellFormed size, hempty, ?_⟩
  by_cases h : c.getHandleTypedIndex handle enumValue < 0 ∨
      c.getHandleTypedIndex handle enumValue ≥ (size : Int)
  · exact Get_of_invalid c size enumValue handle _ h
  · obtain ⟨i, hi, hdec⟩ := index_of_valid _ size h
    exact Get_of_index c size enumValue handle _ i none hi hdec (hempty i hi)

/-- C16 (bounded capacity). Any sequence of `Allocate`, `Get` and `Free`
calls on a new pool returns, and the pool it reaches has exactly `size` slots,
so that at most `size` of them are occupied. -/
theorem occupied_at_most_size (c : HandlesInternal) (size : Nat)
    (enumValue : HAL_HandleEnum) (calls : List (Call TStruct)) :
    ∃ p, runCalls c size enumValue calls (construct size) = .ok p ∧
      p.m_structures.length = size ∧ occupiedCount p ≤ size := by
  obtain ⟨p, hrun, hwf, _⟩ := runCalls_effect c size enumValue calls (construct size)
    (construct_wellFormed size)
  refine ⟨p, hrun, hwf, ?_⟩
  simp only [WellFormed] at hwf
  rw [← hwf]
  exact List.length_filter_le _ _

/-! ## Handles of reused slots, null references, repeated `Free` -/

/-- C17 (a stale handle aliases the new resource). The handle of a
successful `Allocate` is `createHandle(i, enumValue)` for the slot `i` it
fills, whatever the reference and whatever calls came before. With a codec
that round-trips the indices in `[0, size)`: when `Allocate(r1)` fills slot
`i` and returns `h`, then `Free(h)` empties the slot again, and when after any
further calls an `Allocate` of a non-null reference to `r2` fills slot `i`, it
returns the same `h`, and `Get(h)` returns the reference to `r2`, not the null
reference. -/
theorem stale_handle_aliases (c : HandlesInternal) (size : Nat)
    (enumValue : HAL_HandleEnum) (r1 : SharedPtr TStruct) (r2 : TStruct)
    (p : LimitedClassedHandleResource TStruct) (i : Nat)
    (hwf : WellFormed size p) (hi : FirstEmpty p i)
    (hrt : RoundTrips c size enumValue) :
    ∃ p1 p2,
      Allocate c size enumValue r1 p = .ok (c.createHandle (i : Int) enumValue, p1) ∧
      Free c size enumValue (c.createHandle (i : Int) enumValue) p1 = .ok p2 ∧
      FirstEmpty p2 i ∧
      ∀ (calls : List (Call TStruct)) (q : LimitedClassedHandleResource TStruct),
        runCalls c size enumValue calls p2 = .ok q → FirstEmpty q i →
        ∃ q', Allocate c size enumValue (some r2) q
            = .ok (c.createHandle (i : Int) enumValue, q') ∧
          Get c size enumValue (c.createHandle (i : Int) enumValue) q'
            = .ok (some r2, q') := by
  have hlen := lt_length_of_holds p i none hi.1
  have hisize : i < size := by
    simp only [WellFormed] at hwf
    omega
  have hwf1 : WellFormed size (⟨p.m_structures.set i r1⟩ :
      LimitedClassedHandleResource TStruct) := by
    simpa [WellFormed] using hwf
  have hfree := Free_of_index c size enumValue (c.createHandle (i : Int) enumValue)
    (⟨p.m_structures.set i r1⟩ : LimitedClassedHandleResource TStruct) i hisize hwf1
    (hrt i hisize)
  simp only [List.set_set, set_none_of_empty p i hi.1] at hfree
  refine ⟨⟨p.m_structures.set i r1⟩, ⟨p.m_structures⟩,
    Allocate_of_firstEmpty c size enumValue r1 p i hwf hi, hfree, hi, ?_⟩
  intro calls q hrun hq
  obtain ⟨q0, hrun0, hwfq0, _⟩ := runCalls_effect c size enumValue calls
    (⟨p.m_structures⟩ : LimitedClassedHandleResource TStruct) hwf
  rw [hrun] at hrun0
  have hqq : q = q0 := by
    injection hrun0
  subst hqq
  have hqlen := lt_length_of_holds q i none hq.1
  exact ⟨⟨q.m_structures.set i (some r2)⟩,
    Allocate_of_firstEmpty c size enumValue (some r2) q i hwfq0 hq,
    Get_of_index c size enumValue _ _ i (some r2) hisize (hrt i hisize)
      (slotHolds_set_self q i (some r2) hqlen)⟩

theorem stale_handle_aliases_witness :
    (WellFormed 2 (⟨[none, some 20]⟩ : LimitedClassedHandleResource Nat) ∧
      FirstEmpty (⟨[none, some 20]⟩ : LimitedClassedHandleResource Nat) 0 ∧
      RoundTrips sampleHandles 2 1) ∧
    ∃ p1 p2,
      Allocate sampleHandles 2 1 (some 10) (⟨[none, some 20]⟩ :
          LimitedClassedHandleResource Nat)
        = .ok (sampleHandles.createHandle ((0 : Nat) : Int) 1, p1) ∧
      Free sampleHandles 2 1 (sampleHandles.createHandle ((0 : Nat) : Int) 1) p1 = .ok p2 ∧
      FirstEmpty p2 0 ∧
      ∀ (calls : List (Call Nat)) (q : LimitedClassedHandleResource Nat),
        runCalls sampleHandles 2 1 calls p2 = .ok q → FirstEmpty q 0 →
        ∃ q', Allocate sampleHandles 2 1 (some 30) q
            = .ok (sampleHandles.createHandle ((0 : Nat) : Int) 1, q') ∧
          Get sampleHandles 2 1 (sampleHandles.createHandle ((0 : Nat) : Int) 1) q'
            = .ok (some 30, q') :=
  ⟨⟨by decide, by decide, by decide⟩,
    stale_handle_aliases sampleHandles 2 1 (some 10) 30 ⟨[none, some 20]⟩ 0 (by decide)
      (by decide) (by decide)⟩

/-- C18, as stated for every codec, fails. With the sample codec and the tag
0 the handle of index 0 is the sentinel, so on the pool of one empty slot
`Allocate(nullptr)` returns the sentinel. With a codec that decodes every
handle to the index 0, on the pool whose slot 0 holds the resource 10 and
whose slot 1 is empty, `Get` of the handle that `Allocate(nullptr)` returns
gives the reference to 10, not the null reference. -/
theorem allocate_null_fails :
    (WellFormed 1 (⟨[none]⟩ : LimitedClassedHandleResource Nat) ∧
      (∃ j, SlotEmpty (⟨[none]⟩ : LimitedClassedHandleResource Nat) j) ∧
      Allocate sampleHandles 1 0 none (⟨[none]⟩ : LimitedClassedHandleResource Nat)
        = .ok (sampleHandles.HAL_kInvalidHandle, ⟨[none]⟩) ∧
      ¬ AllocateNullOutcome sampleHandles 1 0
          (⟨[none]⟩ : LimitedClassedHandleResource Nat)) ∧
    (WellFormed 2 (⟨[some 10, none]⟩ : LimitedClassedHandleResource Nat) ∧
      (∃ j, SlotEmpty (⟨[some 10, none]⟩ : LimitedClassedHandleResource Nat) j) ∧
      Allocate constantDecodeHandles 2 1 none
          (⟨[some 10, none]⟩ : LimitedClassedHandleResource Nat)
        = .ok (16777217, ⟨[some 10, none]⟩) ∧
      Get constantDecodeHandles 2 1 16777217
          (⟨[some 10, none]⟩ : LimitedClassedHandleResource Nat)
        = .ok (some 10, ⟨[some 10, none]⟩) ∧
      ¬ AllocateNullOutcome constantDecodeHandles 2 1
          (⟨[some 10, none]⟩ : LimitedClassedHandleResource Nat)) := by
  refine ⟨⟨by decide, ⟨0, by decide⟩, by decide, ?_⟩,
    ⟨by decide, ⟨1, by decide⟩, by decide, by decide, ?_⟩⟩
  · rintro ⟨i, hi, _, _, hne, _⟩
    interval_cases i
    exact hne (by decide)
  · rintro ⟨i, hi, hfirst, _, _, _, hget⟩
    interval_cases i
    · exact absurd hfirst.1 (by decide)
    · exact absurd hget (by decide)

/-- C18, amended (allocating a null reference). With a codec that round-trips
the indices in `[0, size)` and gives the sentinel for none of them, on a pool
of `size` slots with an empty slot: `Allocate(nullptr)` returns
`createHandle(i, enumValue)` for the lowest empty index `i`, which is not the
sentinel, and leaves the pool as it was, slot `i` still empty; so the next
`Allocate`, of any reference, returns the same handle, and `Get` of the
handle returns the null reference. -/
theorem allocate_null (c : HandlesInternal) (size : Nat)
    (enumValue : HAL_HandleEnum) (p : LimitedClassedHandleResource TStruct)
    (hwf : WellFormed size p) (hfree : ∃ j, SlotEmpty p j)
    (hrt : RoundTrips c size enumValue) (hvalid : EncodeValid c size enumValue) :
    AllocateNullOutcome c size enumValue p := by
  obtain ⟨i, hi⟩ := exists_firstEmpty p hfree
  have hlen := lt_length_of_holds p i none hi.1
  have hisize : i < size := by
    simp only [WellFormed] at hwf
    omega
  have hret := Allocate_of_firstEmpty c size enumValue none p i hwf hi
  rw [set_none_of_empty p i hi.1] at hret
  exact ⟨i, hisize, hi, hret, hvalid i hisize,
    fun toSet => ⟨_, Allocate_of_firstEmpty c size enumValue toSet p i hwf hi⟩,
    Get_of_index c size enumValue _ p i none hisize (hrt i hisize) hi.1⟩

theorem allocate_null_witness :
    (WellFormed 3 (⟨[some 10, none, some 30]⟩ : LimitedClassedHandleResource Nat) ∧
      (∃ j, SlotEmpty (⟨[some 10, none, some 30]⟩ : LimitedClassedHandleResource Nat) j) ∧
      RoundTrips sampleHandles 3 1 ∧ EncodeValid sampleHandles 3 1) ∧
    AllocateNullOutcome sampleHandles 3 1
      (⟨[some 10, none, some 30]⟩ : LimitedClassedHandleResource Nat) :=
  ⟨⟨by decide, ⟨1, by decide⟩, by decide, by decide⟩,
    allocate_null sampleHandles 3 1 ⟨[some 10, none, some 30]⟩ (by decide) ⟨1, by decide⟩
      (by decide) (by decide)⟩

/-- C19 (`Free` is idempotent). On every pool of `size` slots and for every
handle, `Free(handle)` returns a pool on which a second `Free(handle)` changes
nothing; and `Free` of a handle whose slot is empty already leaves the pool
as it was. -/
theorem free_idempotent (c : HandlesInternal) (size : Nat)
    (enumValue : HAL_HandleEnum) (handle : HAL_Handle)
    (p : LimitedClassedHandleResource TStruct) (hwf : WellFormed size p) :
    ∃ p1, Free c size enumValue handle p = .ok p1 ∧
      (Free c size enumValue handle p).bind (Free c size enumValue handle)
        = Free c size enumValue handle p ∧
      (∀ i : Nat, c.getHandleTypedIndex handle enumValue = (i : Int) →
        SlotEmpty p i → p1 = p) := by
  rcases Free_cases c size enumValue handle p hwf with hret | ⟨i, hi, hdec, hret⟩
  · refine ⟨p, hret, ?_, fun _ _ _ => rfl⟩
    simp [hret, Outcome.bind]
  · have hwf1 : WellFormed size (⟨p.m_structures.set i none⟩ :
        LimitedClassedHandleResource TStruct) := by
      simpa [WellFormed] using hwf
    have hagain := Free_of_index c size enumValue handle
      (⟨p.m_structures.set i none⟩ : LimitedClassedHandleResource TStruct) i hi hwf1 hdec
    simp only [List.set_set] at hagain
    refine ⟨⟨p.m_structures.set i none⟩, hret, ?_, ?_⟩
    · simp [hret, Outcome.bind, hagain]
    · intro k hk hempty
      have hki : k = i := by
        rw [hdec] at hk
        exact (Int.ofNat_inj.mp hk).symm
      subst hki
      rw [set_none_of_empty p k hempty]

theorem free_idempotent_witness :
    WellFormed 2 (⟨[some 10, some 20]⟩ : LimitedClassedHandleResource Nat) ∧
    ∃ p1, Free sampleHandles 2 1 16777217 (⟨[some 10, some 20]⟩ :
        LimitedClassedHandleResource Nat) = .ok p1 ∧
      (Free sampleHandles 2 1 16777217 (⟨[some 10, some 20]⟩ :
          LimitedClassedHandleResource Nat)).bind (Free sampleHandles 2 1 16777217)
        = Free sampleHandles 2 1 16777217 ⟨[some 10, some 20]⟩ ∧
      (∀ i : Nat, sampleHandles.getHandleTypedIndex 16777217 1 = (i : Int) →
        SlotEmpty (⟨[some 10, some 20]⟩ : LimitedClassedHandleResource Nat) i →
        p1 = ⟨[some 10, some 20]⟩) :=
  ⟨by decide, free_idempotent sampleHandles 2 1 16777217 ⟨[some 10, some 20]⟩ (by decide)⟩

end LimitedClassedHandleResource

end hal
